import Mathlib

/-!
# Verification of the lineage viewport engine

Shallow embedding of the interactive pan/zoom viewport implemented in
`src/frontend/src/App.js` (component `AlationStyleLineage`): node geometry,
content-bounds folding, the auto-fit algorithm, wheel / button zooming,
expand-collapse toggling, edge highlighting and edge-path routing.

Numbers in the purely rational parts of the engine (bounds, fit, paths) are
modelled as `ℚ`; the wheel zoom uses `Math.exp` and is modelled over `ℝ`.
The JavaScript `Infinity` sentinels of `getContentBounds` are modelled by the
three-valued `JsNum`; the sentinel fold itself is modelled by an `Option`
accumulator (`none` ↔ the sentinels were never replaced by a finite box).
-/

/-- A content-space position, as stored in `table.position`. -/
structure Point where
  x : ℚ
  y : ℚ
deriving DecidableEq

/-- A lineage node (`table` in the source): stable id, ordered column list and
an optional externally supplied position (`table?.position` may be absent). -/
structure Table where
  id : String
  columns : List String
  position : Option Point
deriving DecidableEq

/-- One endpoint of a lineage edge: `{table, column}`. -/
structure Endpoint where
  table : String
  column : String
deriving DecidableEq

/-- A lineage edge (`connection` in the source).  The JavaScript fields are
`from` and `to`; `from` is a Lean keyword, so they are named `src` / `dst`. -/
structure Connection where
  src : Endpoint
  dst : Endpoint
deriving DecidableEq

/-- The viewport transform state `{x, y, scale}` over `ℚ`. -/
structure Transform where
  x : ℚ
  y : ℚ
  scale : ℚ
deriving DecidableEq

/-- Effective pixel height of a node box, from the bounds fold in
`getContentBounds` / `fitToView`:
`expandedTables.includes(table.id) ? Math.max(120, columns.length * 20 + 60) : 80`. -/
def nodeHeight (expandedTables : List String) (table : Table) : ℚ :=
  if expandedTables.contains table.id then
    max 120 ((table.columns.length : ℚ) * 20 + 60)
  else 80

/-- One step of the `tables.forEach` bounds fold shared by `getContentBounds`
and `fitToView`.  The JavaScript accumulator starts at
`minX = Infinity, minY = Infinity, maxX = -Infinity, maxY = -Infinity`;
`none` models the untouched sentinel state, `some (minX, minY, maxX, maxY)`
the state after at least one positioned table has been folded in.  Tables
without a position are skipped (`if (!table?.position) return`). -/
def updateBounds (expandedTables : List String) (acc : Option (ℚ × ℚ × ℚ × ℚ))
    (table : Table) : Option (ℚ × ℚ × ℚ × ℚ) :=
  match table.position with
  | none => acc
  | some p =>
    let height := nodeHeight expandedTables table
    match acc with
    | none => some (p.x, p.y, p.x + 240, p.y + height)
    | some (minX, minY, maxX, maxY) =>
      some (min minX p.x, min minY p.y, max maxX (p.x + 240), max maxY (p.y + height))

/-- The full bounds fold over the table list. -/
def boundsFold (tables : List Table) (expandedTables : List String) :
    Option (ℚ × ℚ × ℚ × ℚ) :=
  tables.foldl (updateBounds expandedTables) none

/-- A JavaScript number as it appears in the bounds record: either finite or
one of the `Infinity` sentinels (no `NaN` arises in this code path). -/
inductive JsNum where
  | fin (q : ℚ)
  | posInf
  | negInf
deriving DecidableEq

/-- The record returned by `getContentBounds`. -/
structure ContentBounds where
  minX : JsNum
  minY : JsNum
  maxX : JsNum
  maxY : JsNum
  width : JsNum
  height : JsNum
deriving DecidableEq

/-- `getContentBounds`.  The early return fires only for an *empty* (or null)
table list.  Otherwise the sentinel fold runs and the result is padded by 100
on every side.  When no table has a position the sentinels survive the fold,
and IEEE-754 arithmetic gives `minX = Infinity - 100 = Infinity`,
`maxX = -Infinity + 100 = -Infinity`,
`width = maxX - minX + 200 = -Infinity - Infinity + 200 = -Infinity`
(similarly for `minY`/`maxY`/`height`); that branch is written out here. -/
def getContentBounds (tables : List Table) (expandedTables : List String) :
    ContentBounds :=
  if tables.isEmpty then
    ⟨.fin 0, .fin 0, .fin 800, .fin 600, .fin 800, .fin 600⟩
  else
    match boundsFold tables expandedTables with
    | some (minX, minY, maxX, maxY) =>
      ⟨.fin (minX - 100), .fin (minY - 100), .fin (maxX + 100), .fin (maxY + 100),
       .fin (maxX - minX + 200), .fin (maxY - minY + 200)⟩
    | none => ⟨.posInf, .posInf, .negInf, .negInf, .negInf, .negInf⟩

/-- `fitToView`.  `none` models every early `return` (empty table list,
zero-size container, `minX === Infinity`); `some` carries the transform passed
to `setTransform`.  The container width/height stand for the measured
`getBoundingClientRect()` of the svg surface. -/
def fitToView (tables : List Table) (expandedTables : List String)
    (containerWidth containerHeight : ℚ) : Option Transform :=
  if tables.isEmpty then none
  else if containerWidth = 0 ∨ containerHeight = 0 then none
  else
    match boundsFold tables expandedTables with
    | none => none
    | some (minX, minY, maxX, maxY) =>
      let contentWidth := maxX - minX
      let contentHeight := maxY - minY
      let padding : ℚ := 60
      let availableWidth := containerWidth - padding * 2
      let availableHeight := containerHeight - padding * 2
      let scaleX := availableWidth / contentWidth
      let scaleY := availableHeight / contentHeight
      let optimalScale := min scaleX scaleY
      let optimalScale' := max 0.15 (min optimalScale 0.9)
      let scaledContentWidth := contentWidth * optimalScale'
      let scaledContentHeight := contentHeight * optimalScale'
      let x := (containerWidth - scaledContentWidth) / 2 - minX * optimalScale'
      let y := (containerHeight - scaledContentHeight) / 2 - minY * optimalScale'
      some ⟨max x (padding - minX * optimalScale'),
            max y (padding - minY * optimalScale'),
            optimalScale'⟩

/-- `resetView`: unconditionally the identity transform. -/
def resetView : Transform := ⟨0, 0, 1⟩

/-- `toggleTable`: flip membership of `tableId` in the expanded-tables list.
`includes` / `filter(id => id !== tableId)` / `[...prev, tableId]`. -/
def toggleTable (tableId : String) (prev : List String) : List String :=
  if prev.contains tableId then prev.filter (fun id => id != tableId)
  else prev ++ [tableId]

/-- The edge-highlight flag computed inline in the connection render:
`conn.from.column === selectedColumn || conn.to.column === selectedColumn`. -/
def isHighlighted (conn : Connection) (selectedColumn : String) : Bool :=
  conn.src.column == selectedColumn || conn.dst.column == selectedColumn

/-- `isColumnHighlighted(tableId, column)`: some connection touches
`(tableId, column)` and the column is the globally selected one. -/
def isColumnHighlighted (connections : List Connection) (selectedColumn : String)
    (tableId : String) (column : String) : Bool :=
  (connections.any fun conn =>
    (conn.src.table == tableId && conn.src.column == column) ||
    (conn.dst.table == tableId && conn.dst.column == column)) &&
  (column == selectedColumn)

/-- The cubic-bezier geometry produced by `getConnectionPath`
(`M fromX fromY C controlX1 fromY controlX2 toY toX toY`). -/
structure PathSpec where
  fromX : ℚ
  fromY : ℚ
  controlX1 : ℚ
  controlX2 : ℚ
  toX : ℚ
  toY : ℚ
deriving DecidableEq

/-- `getConnectionPath(fromTable, toTable)`.  The JavaScript body dereferences
`fromTable.position.x` / `toTable.position.x` without a guard, so a table
found by id but lacking a position throws a `TypeError`; that is the `.error`
branch. -/
def getConnectionPath (fromTable toTable : Table) : Except String PathSpec :=
  match fromTable.position, toTable.position with
  | some fp, some tp =>
    let fromX := fp.x + 240
    let fromY := fp.y + 40
    let toX := tp.x
    let toY := tp.y + 40
    let distance := |toX - fromX|
    let controlOffset := min (max (distance * 0.4) 80) 200
    .ok ⟨fromX, fromY, fromX + controlOffset, toX - controlOffset, toX, toY⟩
  | _, _ => .error "TypeError: position undefined"

/-- Outcome of rendering one connection: dropped (`return null`) or drawn
with a path and the highlight flag. -/
inductive RenderResult where
  | skip
  | drawn (path : PathSpec) (highlighted : Bool)
deriving DecidableEq

/-- The body of `lineageData.connections.map(...)`: look up both endpoint
tables by id; if either lookup fails, `return null` (skip); otherwise draw
the routed path with the highlight flag. -/
def renderConnection (tables : List Table) (selectedColumn : String)
    (conn : Connection) : Except String RenderResult :=
  match tables.find? (fun t => t.id == conn.src.table) with
  | none => .ok .skip
  | some fromTable =>
    match tables.find? (fun t => t.id == conn.dst.table) with
    | none => .ok .skip
    | some toTable =>
      (getConnectionPath fromTable toTable).map
        (fun p => .drawn p (isHighlighted conn selectedColumn))

/-- The whole connection layer: each connection is rendered independently. -/
def renderConnections (tables : List Table) (selectedColumn : String)
    (connections : List Connection) : List (Except String RenderResult) :=
  connections.map (renderConnection tables selectedColumn)

/-- The viewport transform over `ℝ`, for the `Math.exp`-based wheel zoom. -/
structure RTransform where
  x : ℝ
  y : ℝ
  scale : ℝ

/-- `handleWheel`: `scaleFactor = exp(-deltaY/1000)`, clamp the new scale to
`[0.1, 3]`, then translate so the content under the pointer stays put. -/
noncomputable def handleWheel (t : RTransform) (mouseX mouseY deltaY : ℝ) :
    RTransform :=
  let delta := -deltaY / 1000
  let scaleFactor := Real.exp delta
  let newScale := max 0.1 (min 3 (t.scale * scaleFactor))
  let k := newScale / t.scale
  ⟨t.x - (mouseX - t.x) * (k - 1), t.y - (mouseY - t.y) * (k - 1), newScale⟩

/-- `zoomIn`: multiply the scale by 1.3 clamped to at most 3, anchored at the
viewport centre `(centerX, centerY)`. -/
noncomputable def zoomIn (t : RTransform) (centerX centerY : ℝ) : RTransform :=
  let newScale := min 3 (t.scale * 1.3)
  let k := newScale / t.scale
  ⟨t.x - (centerX - t.x) * (k - 1), t.y - (centerY - t.y) * (k - 1), newScale⟩

/-- `zoomOut`: divide the scale by 1.3 clamped to at least 0.1, anchored at
the viewport centre. -/
noncomputable def zoomOut (t : RTransform) (centerX centerY : ℝ) : RTransform :=
  let newScale := max 0.1 (t.scale / 1.3)
  let k := newScale / t.scale
  ⟨t.x - (centerX - t.x) * (k - 1), t.y - (centerY - t.y) * (k - 1), newScale⟩

/-- Map a content-space point to screen space:
`screen = content * scale + (x, y)` (the svg `translate(x,y) scale(s)`). -/
noncomputable def contentToScreen (t : RTransform) (p : ℝ × ℝ) : ℝ × ℝ :=
  (p.1 * t.scale + t.x, p.2 * t.scale + t.y)

/-- Map a screen-space point back to content space. -/
noncomputable def screenToContent (t : RTransform) (p : ℝ × ℝ) : ℝ × ℝ :=
  ((p.1 - t.x) / t.scale, (p.2 - t.y) / t.scale)

/-- Transforms reachable from the initial state `{x: 0, y: 0, scale: 1}` by
any sequence of wheel zooms, discrete zoom clicks, drags (`handleMouseMove`
overwrites `x`/`y` and keeps the scale), successful `fitToView` calls and
resets. -/
inductive Reach : RTransform → Prop where
  | init : Reach ⟨0, 0, 1⟩
  | wheel {t : RTransform} (mouseX mouseY deltaY : ℝ) :
      Reach t → Reach (handleWheel t mouseX mouseY deltaY)
  | zoomInStep {t : RTransform} (centerX centerY : ℝ) :
      Reach t → Reach (zoomIn t centerX centerY)
  | zoomOutStep {t : RTransform} (centerX centerY : ℝ) :
      Reach t → Reach (zoomOut t centerX centerY)
  | drag {t : RTransform} (newX newY : ℝ) :
      Reach t → Reach ⟨newX, newY, t.scale⟩
  | fit {t : RTransform} (tables : List Table) (expandedTables : List String)
      (W H : ℚ) (T : Transform) :
      fitToView tables expandedTables W H = some T →
      Reach t → Reach ⟨(T.x : ℝ), (T.y : ℝ), (T.scale : ℝ)⟩
  | reset {t : RTransform} : Reach t → Reach ⟨0, 0, 1⟩

/-! ## Helper lemmas about the bounds fold and the fit scale -/

/-- Every node box has height at least 80 (collapsed height; expanded boxes
are at least 120 tall). -/
lemma nodeHeight_ge (e : List String) (t : Table) : 80 ≤ nodeHeight e t := by
  rw [nodeHeight]
  split
  · exact le_trans (by norm_num) (le_max_left _ _)
  · exact le_refl _

/-- Folding more tables onto an established bounds quad only widens it. -/
lemma foldl_updateBounds_mono (e : List String) (ts : List Table) :
    ∀ a b c d : ℚ, ∃ a' b' c' d',
      List.foldl (updateBounds e) (some (a, b, c, d)) ts = some (a', b', c', d') ∧
      a' ≤ a ∧ b' ≤ b ∧ c ≤ c' ∧ d ≤ d' := by
  induction ts with
  | nil => exact fun a b c d => ⟨a, b, c, d, rfl, le_rfl, le_rfl, le_rfl, le_rfl⟩
  | cons hd tl ih =>
    intro a b c d
    rw [List.foldl_cons]
    cases hp : hd.position with
    | none =>
      have hu : updateBounds e (some (a, b, c, d)) hd = some (a, b, c, d) := by
        simp [updateBounds, hp]
      rw [hu]; exact ih a b c d
    | some p =>
      have hu : updateBounds e (some (a, b, c, d)) hd =
          some (min a p.x, min b p.y, max c (p.x + 240), max d (p.y + nodeHeight e hd)) := by
        simp [updateBounds, hp]
      rw [hu]
      obtain ⟨a', b', c', d', hf, h1, h2, h3, h4⟩ := ih (min a p.x) (min b p.y) _ _
      exact ⟨a', b', c', d', hf, h1.trans (min_le_left _ _), h2.trans (min_le_left _ _),
             (le_max_left _ _).trans h3, (le_max_left _ _).trans h4⟩

/-- Any positioned table that takes part in the fold ends up with its whole
box inside the folded bounds, from any starting accumulator. -/
lemma mem_boundsFold (e : List String) (t : Table) (p : Point) (hp : t.position = some p) :
    ∀ ts : List Table, t ∈ ts → ∀ acc,
      ∃ a b c d, List.foldl (updateBounds e) acc ts = some (a, b, c, d) ∧
        a ≤ p.x ∧ p.x + 240 ≤ c ∧ b ≤ p.y ∧ p.y + nodeHeight e t ≤ d := by
  intro ts
  induction ts with
  | nil => intro h; cases h
  | cons hd tl ih =>
    intro ht acc
    rw [List.foldl_cons]
    rcases List.mem_cons.mp ht with rfl | hmem
    · cases acc with
      | none =>
        have hu : updateBounds e none t =
            some (p.x, p.y, p.x + 240, p.y + nodeHeight e t) := by
          simp [updateBounds, hp]
        rw [hu]
        obtain ⟨a', b', c', d', hf, h1, h2, h3, h4⟩ :=
          foldl_updateBounds_mono e tl p.x p.y (p.x + 240) (p.y + nodeHeight e t)
        exact ⟨a', b', c', d', hf, h1, h3, h2, h4⟩
      | some q =>
        obtain ⟨a0, b0, c0, d0⟩ := q
        have hu : updateBounds e (some (a0, b0, c0, d0)) t =
            some (min a0 p.x, min b0 p.y, max c0 (p.x + 240),
                  max d0 (p.y + nodeHeight e t)) := by
          simp [updateBounds, hp]
        rw [hu]
        obtain ⟨a', b', c', d', hf, h1, h2, h3, h4⟩ :=
          foldl_updateBounds_mono e tl (min a0 p.x) (min b0 p.y) (max c0 (p.x + 240))
            (max d0 (p.y + nodeHeight e t))
        exact ⟨a', b', c', d', hf, h1.trans (min_le_right _ _),
               (le_max_right _ _).trans h3, h2.trans (min_le_right _ _),
               (le_max_right _ _).trans h4⟩
    · exact ih hmem _

/-- If no table has a position the fold never leaves the sentinel state. -/
lemma all_none_boundsFold (e : List String) :
    ∀ ts : List Table, (∀ t ∈ ts, t.position = none) →
      List.foldl (updateBounds e) none ts = none := by
  intro ts
  induction ts with
  | nil => intro _; rfl
  | cons hd tl ih =>
    intro h
    rw [List.foldl_cons]
    have hu : updateBounds e none hd = none := by
      simp [updateBounds, h hd (List.mem_cons_self _ _)]
    rw [hu]
    exact ih fun t htl => h t (List.mem_cons_of_mem _ htl)

/-- A successful `fitToView` always produces a scale inside the fit clamp
range `[0.15, 0.9]`. -/
lemma fit_scale_bounds (tables : List Table) (e : List String) (W H : ℚ)
    (T : Transform) (h : fitToView tables e W H = some T) :
    3/20 ≤ T.scale ∧ T.scale ≤ 9/10 := by
  rw [fitToView] at h
  split_ifs at h
  cases hb : boundsFold tables e with
  | none => rw [hb] at h; simp at h
  | some q =>
    obtain ⟨a, b, c, d⟩ := q
    rw [hb] at h
    simp only [Option.some.injEq] at h
    rw [← h]
    constructor
    · exact le_trans (by norm_num) (le_max_left _ _)
    · exact max_le (by norm_num) (le_trans (min_le_right _ _) (by norm_num))

/-- Scale projection of `handleWheel`. -/
lemma handleWheel_scale (t : RTransform) (mouseX mouseY deltaY : ℝ) :
    (handleWheel t mouseX mouseY deltaY).scale =
      max 0.1 (min 3 (t.scale * Real.exp (-deltaY / 1000))) := rfl

/-- Scale projection of `zoomIn`. -/
lemma zoomIn_scale (t : RTransform) (cx cy : ℝ) :
    (zoomIn t cx cy).scale = min 3 (t.scale * 1.3) := rfl

/-- Scale projection of `zoomOut`. -/
lemma zoomOut_scale (t : RTransform) (cx cy : ℝ) :
    (zoomOut t cx cy).scale = max 0.1 (t.scale / 1.3) := rfl

/-- The mathematical constant e lies strictly below the wheel-zoom ceiling. -/
lemma exp_one_lt_three : Real.exp 1 < 3 :=
  lt_trans Real.exp_one_lt_d9 (by norm_num)

/-- The mathematical constant e lies strictly above the wheel-zoom floor. -/
lemma exp_one_gt_tenth : (0.1 : ℝ) < Real.exp 1 :=
  lt_trans (by norm_num) Real.exp_one_gt_d9

/-- A wheel event with `deltaY = -1000` at the initial transform produces the
unclamped scale `e`: the candidate scale `1 * e ≈ 2.718` is inside `[0.1, 3]`,
so neither clamp fires. -/
lemma wheel_at_init_scale :
    (handleWheel ⟨0, 0, 1⟩ 0 0 (-1000)).scale = Real.exp 1 := by
  rw [handleWheel_scale]
  have h1 : -(-1000 : ℝ) / 1000 = 1 := by norm_num
  rw [h1]
  show max 0.1 (min 3 ((1 : ℝ) * Real.exp 1)) = Real.exp 1
  rw [one_mul, min_eq_right (le_of_lt exp_one_lt_three),
      max_eq_right (le_of_lt exp_one_gt_tenth)]

/-! ## Claim theorems -/

/-- Claim C1: for every transform reachable from the initial state
`{x: 0, y: 0, scale: 1}` by wheel zooms, discrete zoom-in/zoom-out clicks,
drags, successful fit-to-view calls and resets, the scale stays within
`[0.1, 3.0]`. -/
theorem reachable_scale_invariant (t : RTransform) (h : Reach t) :
    0.1 ≤ t.scale ∧ t.scale ≤ 3 := by
  induction h with
  | init => exact ⟨by norm_num, by norm_num⟩
  | wheel mouseX mouseY deltaY _ _ =>
    rw [handleWheel_scale]
    exact ⟨le_max_left _ _, max_le (by norm_num) (min_le_left _ _)⟩
  | zoomInStep cx cy _ ih =>
    rw [zoomIn_scale]
    refine ⟨le_min (by norm_num) ?_, min_le_left _ _⟩
    nlinarith [ih.1]
  | zoomOutStep cx cy _ ih =>
    rw [zoomOut_scale]
    refine ⟨le_max_left _ _, max_le (by norm_num) ?_⟩
    rw [div_le_iff₀ (by norm_num : (0:ℝ) < 1.3)]
    nlinarith [ih.2]
  | drag newX newY _ ih => exact ih
  | fit tables expandedTables W H T hT _ _ =>
    obtain ⟨h1, h2⟩ := fit_scale_bounds tables expandedTables W H T hT
    have h1' : ((3/20 : ℚ) : ℝ) ≤ (T.scale : ℝ) := by exact_mod_cast h1
    have h2' : ((T.scale : ℚ) : ℝ) ≤ ((9/10 : ℚ) : ℝ) := by exact_mod_cast h2
    constructor
    · show (0.1 : ℝ) ≤ (T.scale : ℝ)
      push_cast at h1'
      linarith
    · show ((T.scale : ℚ) : ℝ) ≤ 3
      push_cast at h2'
      linarith
  | reset _ _ => exact ⟨by norm_num, by norm_num⟩

/-- Witness for C1: the initial transform is reachable and satisfies the
scale bounds. -/
theorem reachable_scale_invariant_witness :
    Reach ⟨0, 0, 1⟩ ∧
    (0.1 ≤ (RTransform.mk 0 0 1).scale ∧ (RTransform.mk 0 0 1).scale ≤ 3) :=
  ⟨Reach.init, reachable_scale_invariant _ Reach.init⟩

/-- Counterexample for C2 as stated: with two collapsed nodes at `(0,0)` and
`(10000,0)` in an `800 × 600` viewport the ideal fit ratio `680/10240` is
below the 0.15 floor, the clamp forces scale `0.15 = 3/20` and translate
`x = 60`, and the right node's right edge lands at
`10240 * 0.15 + 60 = 1596 > 800 - 60`: the box is not contained in the
margin-shrunk viewport. -/
theorem fit_containment_counterexample :
    fitToView [⟨"t1", [], some ⟨0, 0⟩⟩, ⟨"t2", [], some ⟨10000, 0⟩⟩] [] 800 600 =
      some ⟨60, 294, 3/20⟩ ∧
    ¬ (((10000 : ℚ) + 240) * (3/20) + 60 ≤ 800 - 60) := by
  constructor
  · norm_num [fitToView, boundsFold, updateBounds, nodeHeight, min_def, max_def]
  · norm_num

/-- Claim C2 (amended): after a successful `fitToView`, every positioned
node's screen-space box lies within the viewport shrunk by the 60-pixel fit
margin on every side, provided the ideal fit ratio
`min(availableWidth / contentWidth, availableHeight / contentHeight)` is at
least 0.15, i.e. the lower scale clamp does not engage. -/
theorem fit_containment (tables : List Table) (expandedTables : List String)
    (W H a b c d tx ty s : ℚ)
    (hb : boundsFold tables expandedTables = some (a, b, c, d))
    (hs : 0.15 ≤ min ((W - 120) / (c - a)) ((H - 120) / (d - b)))
    (hT : fitToView tables expandedTables W H = some ⟨tx, ty, s⟩)
    (t : Table) (ht : t ∈ tables) (p : Point) (hp : t.position = some p) :
    60 ≤ p.x * s + tx ∧ (p.x + 240) * s + tx ≤ W - 60 ∧
    60 ≤ p.y * s + ty ∧ (p.y + nodeHeight expandedTables t) * s + ty ≤ H - 60 := by
  -- extract the three component equations from the successful fit
  rw [fitToView] at hT
  split_ifs at hT
  rw [hb] at hT
  simp only [Option.some.injEq, Transform.mk.injEq] at hT
  obtain ⟨htx, hty, hsv⟩ := hT
  rw [hsv] at htx hty
  rw [show (W - 60 * 2 : ℚ) = W - 120 from by ring,
      show (H - 60 * 2 : ℚ) = H - 120 from by ring] at hsv
  -- the box of (t, p) is inside the folded bounds
  obtain ⟨a', b', c', d', hfold, hax, hxc, hby, hyd⟩ :=
    mem_boundsFold expandedTables t p hp tables ht none
  rw [boundsFold] at hb
  rw [hfold] at hb
  simp only [Option.some.injEq, Prod.mk.injEq] at hb
  obtain ⟨e1, e2, e3, e4⟩ := hb
  rw [e1] at hax
  rw [e2] at hby
  rw [e3] at hxc
  rw [e4] at hyd
  -- scale facts: the lower clamp does not engage
  have hmin : (0.15 : ℚ) ≤ min (min ((W - 120) / (c - a)) ((H - 120) / (d - b))) 0.9 :=
    le_min hs (by norm_num)
  have hs_eq : s = min (min ((W - 120) / (c - a)) ((H - 120) / (d - b))) 0.9 := by
    rw [← hsv, max_eq_right hmin]
  have hs015 : (0.15 : ℚ) ≤ s := hs_eq ▸ hmin
  have hs0 : (0 : ℚ) ≤ s := by linarith
  have hsX : s ≤ (W - 120) / (c - a) := by
    rw [hs_eq]; exact (min_le_left _ _).trans (min_le_left _ _)
  have hsY : s ≤ (H - 120) / (d - b) := by
    rw [hs_eq]; exact (min_le_left _ _).trans (min_le_right _ _)
  have hh := nodeHeight_ge expandedTables t
  have hca : (0 : ℚ) < c - a := by linarith
  have hdb : (0 : ℚ) < d - b := by linarith
  have hW : s * (c - a) ≤ W - 120 := (le_div_iff₀ hca).mp hsX
  have hH : s * (d - b) ≤ H - 120 := (le_div_iff₀ hdb).mp hsY
  have haxs : a * s ≤ p.x * s := mul_le_mul_of_nonneg_right hax hs0
  have hxcs : (p.x + 240) * s ≤ c * s := mul_le_mul_of_nonneg_right hxc hs0
  have hbys : b * s ≤ p.y * s := mul_le_mul_of_nonneg_right hby hs0
  have hyds : (p.y + nodeHeight expandedTables t) * s ≤ d * s :=
    mul_le_mul_of_nonneg_right hyd hs0
  have htxge : 60 - a * s ≤ tx := htx ▸ le_max_right _ _
  have htyge : 60 - b * s ≤ ty := hty ▸ le_max_right _ _
  have htxle : tx ≤ W - 60 - c * s := by
    rw [← htx]
    apply max_le
    · linarith
    · linarith
  have htyle : ty ≤ H - 60 - d * s := by
    rw [← hty]
    apply max_le
    · linarith
    · linarith
  refine ⟨by linarith, by linarith, by linarith, by linarith⟩

/-- Witness for C2: the Scenario-A node set (two collapsed nodes at `(0,0)`
and `(400,0)`, viewport `800 × 600`) fits with scale `0.9` and translate
`(112, 264)`, and the right node's box respects the 60-pixel margin. -/
theorem fit_containment_witness :
    60 ≤ (Point.mk 400 0).x * (9/10 : ℚ) + 112 ∧
    ((Point.mk 400 0).x + 240) * (9/10 : ℚ) + 112 ≤ 800 - 60 ∧
    60 ≤ (Point.mk 400 0).y * (9/10 : ℚ) + 264 ∧
    ((Point.mk 400 0).y + nodeHeight [] ⟨"t2", [], some ⟨400, 0⟩⟩) * (9/10 : ℚ) + 264 ≤
      600 - 60 :=
  fit_containment [⟨"t1", [], some ⟨0, 0⟩⟩, ⟨"t2", [], some ⟨400, 0⟩⟩] []
    800 600 0 0 640 80 112 264 (9/10)
    (by norm_num [boundsFold, updateBounds, nodeHeight, min_def, max_def])
    (by norm_num [min_def])
    (by norm_num [fitToView, boundsFold, updateBounds, nodeHeight, min_def, max_def])
    ⟨"t2", [], some ⟨400, 0⟩⟩ (by simp) ⟨400, 0⟩ rfl

/-- Claim C3: a wheel zoom anchored at the pointer keeps the content point
that was under the pointer exactly under the pointer, for any transform with
scale in `[0.1, 3]` and any wheel delta, including when the new scale is
clamped. -/
theorem zoom_anchor_invariance (t : RTransform) (mouseX mouseY deltaY : ℝ)
    (h1 : 0.1 ≤ t.scale) (h2 : t.scale ≤ 3) :
    contentToScreen (handleWheel t mouseX mouseY deltaY)
      (screenToContent t (mouseX, mouseY)) = (mouseX, mouseY) := by
  have hs : t.scale ≠ 0 := ne_of_gt (by linarith)
  rw [contentToScreen, screenToContent, handleWheel]
  rw [Prod.ext_iff]
  constructor
  · show (mouseX - t.x) / t.scale * _ + _ = mouseX
    generalize max 0.1 (min 3 (t.scale * Real.exp (-deltaY / 1000))) = ns
    field_simp
    ring
  · show (mouseY - t.y) / t.scale * _ + _ = mouseY
    generalize max 0.1 (min 3 (t.scale * Real.exp (-deltaY / 1000))) = ns
    field_simp
    ring

/-- Witness for C3: concrete zoom at the initial transform, anchored at
`(5, 7)` with `deltaY = 200`. -/
theorem zoom_anchor_invariance_witness :
    contentToScreen (handleWheel ⟨0, 0, 1⟩ 5 7 200) (screenToContent ⟨0, 0, 1⟩ (5, 7)) =
      (5, 7) :=
  zoom_anchor_invariance ⟨0, 0, 1⟩ 5 7 200 (by norm_num) (by norm_num)

/-- Counterexample for C4 as stated: the wheel event with `deltaY = -1000` at
scale `1.0` produces scale `e ≈ 2.718`, not the claimed clamped ceiling `3.0`
(the unclamped result `e` does not exceed 3). -/
theorem wheel_scenario_d_counterexample :
    (handleWheel ⟨0, 0, 1⟩ 0 0 (-1000)).scale ≠ 3 := by
  rw [wheel_at_init_scale]
  exact ne_of_lt exp_one_lt_three

/-- Claim C4 (amended): every wheel event sets the scale to
`clamp(oldScale * exp(-deltaY / 1000), 0.1, 3)`; in particular
`deltaY = -1000` at scale `1.0` gives scale factor `e ≈ 2.718` and the new
scale is exactly `e` (no clamping, since `e < 3`). -/
theorem wheel_scale_formula :
    (∀ (t : RTransform) (mouseX mouseY deltaY : ℝ),
      (handleWheel t mouseX mouseY deltaY).scale =
        max 0.1 (min 3 (t.scale * Real.exp (-deltaY / 1000)))) ∧
    (handleWheel ⟨0, 0, 1⟩ 0 0 (-1000)).scale = Real.exp 1 ∧
    (2.718 : ℝ) < Real.exp 1 ∧ Real.exp 1 < 3 :=
  ⟨handleWheel_scale, wheel_at_init_scale,
   lt_trans (by norm_num) Real.exp_one_gt_d9, exp_one_lt_three⟩

/-- Counterexample for C5 as stated: a non-empty table list whose single node
has no position does not get the fixed default bounds; the sentinels survive
and the returned width is `-Infinity`. -/
theorem getContentBounds_counterexample :
    getContentBounds [⟨"t1", [], none⟩] [] ≠
      ⟨.fin 0, .fin 0, .fin 800, .fin 600, .fin 800, .fin 600⟩ ∧
    (getContentBounds [⟨"t1", [], none⟩] []).width = JsNum.negInf := by
  constructor
  · intro h
    have hv : getContentBounds [⟨"t1", [], none⟩] [] =
        ⟨.posInf, .posInf, .negInf, .negInf, .negInf, .negInf⟩ := by
      norm_num [getContentBounds, boundsFold, updateBounds]
    rw [hv] at h
    exact absurd (congrArg ContentBounds.width h) (by simp)
  · norm_num [getContentBounds, boundsFold, updateBounds]

/-- Claim C5 (amended): the content-bounds computation returns the fixed
default bounds (a non-empty rectangle with finite, non-zero width and height)
exactly for the empty table list; for a non-empty list in which no node has a
position, the `Infinity` sentinels survive the fold and the result is the
degenerate record with `minX = minY = +Infinity` and
`maxX = maxY = width = height = -Infinity`. -/
theorem getContentBounds_default (tables : List Table) (expandedTables : List String) :
    (tables = [] →
      getContentBounds tables expandedTables =
        ⟨.fin 0, .fin 0, .fin 800, .fin 600, .fin 800, .fin 600⟩) ∧
    (tables ≠ [] → (∀ t ∈ tables, t.position = none) →
      getContentBounds tables expandedTables =
        ⟨.posInf, .posInf, .negInf, .negInf, .negInf, .negInf⟩) := by
  constructor
  · rintro rfl; rfl
  · intro hne hall
    rw [getContentBounds, if_neg (by simp [List.isEmpty_iff, hne]),
        boundsFold, all_none_boundsFold _ _ hall]

/-- Witness for C5: both arms of the amended claim at concrete inputs. -/
theorem getContentBounds_default_witness :
    getContentBounds [] ["x"] = ⟨.fin 0, .fin 0, .fin 800, .fin 600, .fin 800, .fin 600⟩ ∧
    getContentBounds [⟨"t1", [], none⟩] [] =
      ⟨.posInf, .posInf, .negInf, .negInf, .negInf, .negInf⟩ :=
  ⟨(getContentBounds_default [] ["x"]).1 rfl,
   (getContentBounds_default [⟨"t1", [], none⟩] []).2 (by simp)
     (by intro t htm; rw [List.mem_singleton] at htm; subst htm; rfl)⟩

/-- Claim C6: an edge whose `from.table` or `to.table` matches no node id is
skipped (`return null`) without an error, and the surrounding connection list
renders every other edge exactly as it would alone. -/
theorem stale_edge_skipped (tables : List Table) (selectedColumn : String)
    (conns1 conns2 : List Connection) (conn : Connection)
    (h : (∀ t ∈ tables, t.id ≠ conn.src.table) ∨ (∀ t ∈ tables, t.id ≠ conn.dst.table)) :
    renderConnection tables selectedColumn conn = .ok .skip ∧
    renderConnections tables selectedColumn (conns1 ++ conn :: conns2) =
      renderConnections tables selectedColumn conns1 ++
        .ok .skip :: renderConnections tables selectedColumn conns2 := by
  have hskip : renderConnection tables selectedColumn conn = .ok .skip := by
    rw [renderConnection]
    rcases h with h | h
    · have hf : tables.find? (fun t => t.id == conn.src.table) = none := by
        rw [List.find?_eq_none]
        intro t ht
        simpa using h t ht
      rw [hf]
    · cases hf : tables.find? (fun t => t.id == conn.src.table) with
      | none => rfl
      | some ft =>
        have hf2 : tables.find? (fun t => t.id == conn.dst.table) = none := by
          rw [List.find?_eq_none]
          intro t ht
          simpa using h t ht
        rw [hf2]
  refine ⟨hskip, ?_⟩
  rw [renderConnections, List.map_append, List.map_cons, hskip]
  rfl

/-- Witness for C6: Scenario C — an edge from the unknown node id `missing`
into the only node `table1` is skipped and leaves the (empty) remainder of
the render list untouched. -/
theorem stale_edge_skipped_witness :
    renderConnection [⟨"table1", ["col_a"], some ⟨0, 0⟩⟩] "col_a"
      ⟨⟨"missing", "col_a"⟩, ⟨"table1", "col_a"⟩⟩ = .ok .skip ∧
    renderConnections [⟨"table1", ["col_a"], some ⟨0, 0⟩⟩] "col_a"
        ([] ++ ⟨⟨"missing", "col_a"⟩, ⟨"table1", "col_a"⟩⟩ :: []) =
      renderConnections [⟨"table1", ["col_a"], some ⟨0, 0⟩⟩] "col_a" [] ++
        .ok .skip :: renderConnections [⟨"table1", ["col_a"], some ⟨0, 0⟩⟩] "col_a" [] :=
  stale_edge_skipped _ _ [] [] _ (Or.inl (by decide))

/-- Claim C7: the edge-highlight flag is true exactly when one of the edge's
endpoint columns equals the selected column. -/
theorem edge_highlight_iff (conn : Connection) (selectedColumn : String) :
    isHighlighted conn selectedColumn = true ↔
      conn.src.column = selectedColumn ∨ conn.dst.column = selectedColumn := by
  simp [isHighlighted]

/-- Claim C8: toggling the same id twice restores the original membership of
the expanded-tables set, for every starting list and every element. -/
theorem toggle_toggle_mem (prev : List String) (tableId x : String) :
    x ∈ toggleTable tableId (toggleTable tableId prev) ↔ x ∈ prev := by
  by_cases hmem : tableId ∈ prev
  · have hin : toggleTable tableId prev = prev.filter (fun id => id != tableId) := by
      rw [toggleTable, if_pos (List.elem_iff.mpr hmem)]
    have hnotin : tableId ∉ prev.filter (fun id => id != tableId) := by
      simp [List.mem_filter]
    have hout : toggleTable tableId (prev.filter (fun id => id != tableId)) =
        prev.filter (fun id => id != tableId) ++ [tableId] := by
      rw [toggleTable, if_neg (fun hcc => hnotin (List.elem_iff.mp hcc))]
    rw [hin, hout]
    rcases eq_or_ne x tableId with rfl | hx
    · simp [hmem]
    · simp [List.mem_append, List.mem_filter, bne_iff_ne, hx]
  · have hin : toggleTable tableId prev = prev ++ [tableId] := by
      rw [toggleTable, if_neg (fun hcc => hmem (List.elem_iff.mp hcc))]
    have hout : toggleTable tableId (prev ++ [tableId]) =
        (prev ++ [tableId]).filter (fun id => id != tableId) := by
      rw [toggleTable, if_pos (List.elem_iff.mpr (by simp))]
    rw [hin, hout]
    rcases eq_or_ne x tableId with rfl | hx
    · simp [List.mem_filter, hmem]
    · simp [List.mem_filter, List.mem_append, bne_iff_ne, hx]

/-- Claim C9: whenever some table has a position, the bounds fold succeeds
and delivers a content box at least 240 wide and at least 80 tall (so the
fit-scale divisions are over strictly positive denominators); when the fold
stays in the sentinel state, `fitToView` returns before any division. -/
theorem fitToView_no_div_by_zero (tables : List Table) (expandedTables : List String)
    (W H : ℚ) :
    ((∃ t ∈ tables, t.position.isSome) →
      ∃ a b c d, boundsFold tables expandedTables = some (a, b, c, d) ∧
        240 ≤ c - a ∧ 80 ≤ d - b) ∧
    (boundsFold tables expandedTables = none →
      fitToView tables expandedTables W H = none) := by
  constructor
  · rintro ⟨t, ht, hpos⟩
    obtain ⟨p, hp⟩ := Option.isSome_iff_exists.mp hpos
    obtain ⟨a, b, c, d, hf, h1, h2, h3, h4⟩ :=
      mem_boundsFold expandedTables t p hp tables ht none
    have hh := nodeHeight_ge expandedTables t
    exact ⟨a, b, c, d, hf, by linarith, by linarith⟩
  · intro hb
    rw [fitToView]
    split_ifs with h1 h2
    · rfl
    · rfl
    · rw [hb]

/-- Witness for C9: a singleton positioned node produces bounds of exactly
its box, and a position-less list makes `fitToView` a no-op. -/
theorem fitToView_no_div_by_zero_witness :
    (∃ a b c d, boundsFold [⟨"t1", ["c1"], some ⟨5, 7⟩⟩] ["t1"] = some (a, b, c, d) ∧
      240 ≤ c - a ∧ 80 ≤ d - b) ∧
    fitToView [⟨"t2", [], none⟩] [] 800 600 = none :=
  ⟨(fitToView_no_div_by_zero [⟨"t1", ["c1"], some ⟨5, 7⟩⟩] ["t1"] 800 600).1
     ⟨⟨"t1", ["c1"], some ⟨5, 7⟩⟩, by simp, rfl⟩,
   (fitToView_no_div_by_zero [⟨"t2", [], none⟩] [] 800 600).2
     (by norm_num [boundsFold, updateBounds])⟩

/-- Claim C10: toggling preserves duplicate-freeness of the expanded-tables
list: removal filters every occurrence, insertion appends only when absent. -/
theorem toggle_nodup (prev : List String) (tableId : String) (h : prev.Nodup) :
    (toggleTable tableId prev).Nodup := by
  rw [toggleTable]
  split
  · exact h.filter _
  · rename_i hc
    have hn : tableId ∉ prev := fun hm => hc (List.elem_iff.mpr hm)
    simp [List.nodup_append, h, hn]

/-- Witness for C10: toggling a fresh id into a one-element list keeps the
list duplicate-free. -/
theorem toggle_nodup_witness : (toggleTable "b" ["a"]).Nodup :=
  toggle_nodup ["a"] "b" (by simp)
